import Mathlib

/-!
Shallow embedding of `backend/gcn_processor.py` (eth-graph-detect).

The Python module implements a per-request pipeline
`apply_hybrid_labeling → prepare_pyg_data → train → predict → aggregate`.
This file embeds its pure data-flow faithfully:

* Python floats (feature values, thresholds, probabilities) are modelled by `ℚ`;
  every comparison in the source is on finitely representable values, and the
  claims under study are order/threshold properties, for which `ℚ` is the
  standard shallow-embedding choice.
* Python `set`s of node-id strings are modelled by `Finset String`
  (`list(s)` materialises a set as a duplicate-free list, so its `len`
  is the `Finset.card`).
* Python lists keep their order and duplicates as Lean `List`s.
* The trained GCN's output probabilities are opaque real inputs to the
  aggregation step; they are modelled as a function `ℕ → ℚ` from node index
  to fraud-class probability (the aggregation logic never inspects how they
  were produced).
-/

set_option autoImplicit false

namespace GcnProcessor

/-- Per-node feature dictionary `node['features']` with the six keys the
backend reads: degree, in_degree, out_degree, pagerank, tx_entropy,
micro_score. -/
structure NodeFeatures where
  degree : ℚ
  in_degree : ℚ
  out_degree : ℚ
  pagerank : ℚ
  tx_entropy : ℚ
  micro_score : ℚ
  deriving DecidableEq

/-- A node of the request graph: `{'id': string, 'features': {...}}`. -/
structure Node where
  id : String
  features : NodeFeatures
  deriving DecidableEq

/-- An edge of the request graph: `{'source': string, 'target': string}`. -/
structure Edge where
  source : String
  target : String
  deriving DecidableEq

/-- The parsed request payload `graph_data`: ordered node list and edge list.
The risk threshold travels separately (`graph_data['metadata']['risk_threshold']`). -/
structure Graph where
  nodes : List Node
  edges : List Edge
  deriving DecidableEq

/-- The ids present in the graph, in node order (`[n['id'] for n in nodes]`). -/
def node_ids (g : Graph) : List String :=
  g.nodes.map Node.id

/-- Hard-coded manual fraud set from `apply_hybrid_labeling`:
`manual_fraud = {'BinanceWallet'}`. -/
def manual_fraud : Finset String := {"BinanceWallet"}

/-- Hard-coded manual clean set from `apply_hybrid_labeling`: `manual_clean = set()`. -/
def manual_clean : Finset String := ∅

/-- One iteration of the labeling loop body in `apply_hybrid_labeling`:
skip manually assigned ids (`continue`), else add to `threshold_fraud` when
`micro_score >= threshold * 1.6`, else add to `threshold_clean` when
`micro_score <= threshold * 0.8 and degree <= 2`. The accumulator is the pair
`(threshold_fraud, threshold_clean)`. -/
def labelStep (t : ℚ) (acc : Finset String × Finset String) (n : Node) :
    Finset String × Finset String :=
  if n.id ∈ manual_fraud ∨ n.id ∈ manual_clean then acc
  else if n.features.micro_score ≥ t * (8 / 5) then (insert n.id acc.1, acc.2)
  else if n.features.micro_score ≤ t * (4 / 5) ∧ n.features.degree ≤ 2 then
    (acc.1, insert n.id acc.2)
  else acc

/-- The `for node in graph_data['nodes']` loop of `apply_hybrid_labeling`,
starting from two empty sets (`threshold * 1.6` and `threshold * 0.8` are
`t * 8/5` and `t * 4/5` in `ℚ`). -/
def threshold_sets (g : Graph) (t : ℚ) : Finset String × Finset String :=
  g.nodes.foldl (labelStep t) (∅, ∅)

/-- Return value of `apply_hybrid_labeling`: the fraud and clean id sets
(materialised by Python as `list(set)`) and the unknown id list. -/
structure LabelSets where
  fraud : Finset String
  clean : Finset String
  unknown : List String
  deriving DecidableEq

/-- Embedding of `apply_hybrid_labeling(graph_data, threshold)`:
`fraud_nodes = list(manual_fraud.union(threshold_fraud))`,
`clean_nodes = list(manual_clean.union(threshold_clean))`,
`unknown_nodes = [n['id'] for n in nodes if id not in fraud_nodes and id not in clean_nodes]`. -/
def apply_hybrid_labeling (g : Graph) (t : ℚ) : LabelSets :=
  let ts := threshold_sets g t
  let fraud := manual_fraud ∪ ts.1
  let clean := manual_clean ∪ ts.2
  { fraud := fraud
  , clean := clean
  , unknown := (g.nodes.filter fun n => decide (n.id ∉ fraud ∧ n.id ∉ clean)).map Node.id }

/-- The condition under which the loop body adds a node to `threshold_fraud`. -/
def isThresholdFraud (t : ℚ) (n : Node) : Prop :=
  ¬(n.id ∈ manual_fraud ∨ n.id ∈ manual_clean) ∧ n.features.micro_score ≥ t * (8 / 5)

/-- The condition under which the loop body adds a node to `threshold_clean`
(the `elif` makes it disjoint from the fraud condition). -/
def isThresholdClean (t : ℚ) (n : Node) : Prop :=
  ¬(n.id ∈ manual_fraud ∨ n.id ∈ manual_clean) ∧
    ¬(n.features.micro_score ≥ t * (8 / 5)) ∧
    (n.features.micro_score ≤ t * (4 / 5) ∧ n.features.degree ≤ 2)

instance (t : ℚ) (n : Node) : Decidable (isThresholdFraud t n) := by
  unfold isThresholdFraud; infer_instance

instance (t : ℚ) (n : Node) : Decidable (isThresholdClean t n) := by
  unfold isThresholdClean; infer_instance

lemma labelStep_fst_mem (t : ℚ) (acc : Finset String × Finset String) (n : Node)
    (a : String) :
    a ∈ (labelStep t acc n).1 ↔ a ∈ acc.1 ∨ (n.id = a ∧ isThresholdFraud t n) := by
  unfold labelStep isThresholdFraud
  split_ifs with h1 h2 h3 <;>
    (try simp only [Finset.mem_insert]) <;>
    constructor <;> intro h <;> tauto

lemma labelStep_snd_mem (t : ℚ) (acc : Finset String × Finset String) (n : Node)
    (a : String) :
    a ∈ (labelStep t acc n).2 ↔ a ∈ acc.2 ∨ (n.id = a ∧ isThresholdClean t n) := by
  unfold labelStep isThresholdClean
  split_ifs with h1 h2 h3 <;>
    (try simp only [Finset.mem_insert]) <;>
    constructor <;> intro h <;> tauto

lemma foldl_labelStep_fst (t : ℚ) (ns : List Node) :
    ∀ (acc : Finset String × Finset String) (a : String),
      (a ∈ (ns.foldl (labelStep t) acc).1 ↔
        a ∈ acc.1 ∨ ∃ n ∈ ns, n.id = a ∧ isThresholdFraud t n) := by
  induction ns with
  | nil => intro acc a; simp
  | cons n ns ih =>
      intro acc a
      rw [List.foldl_cons, ih, labelStep_fst_mem]
      simp only [List.mem_cons]
      constructor
      · rintro ((h | h) | ⟨m, hm, hrest⟩)
        · exact Or.inl h
        · exact Or.inr ⟨n, Or.inl rfl, h⟩
        · exact Or.inr ⟨m, Or.inr hm, hrest⟩
      · rintro (h | ⟨m, hm | hm, hrest⟩)
        · exact Or.inl (Or.inl h)
        · exact Or.inl (Or.inr (hm ▸ hrest))
        · exact Or.inr ⟨m, hm, hrest⟩

lemma foldl_labelStep_snd (t : ℚ) (ns : List Node) :
    ∀ (acc : Finset String × Finset String) (a : String),
      (a ∈ (ns.foldl (labelStep t) acc).2 ↔
        a ∈ acc.2 ∨ ∃ n ∈ ns, n.id = a ∧ isThresholdClean t n) := by
  induction ns with
  | nil => intro acc a; simp
  | cons n ns ih =>
      intro acc a
      rw [List.foldl_cons, ih, labelStep_snd_mem]
      simp only [List.mem_cons]
      constructor
      · rintro ((h | h) | ⟨m, hm, hrest⟩)
        · exact Or.inl h
        · exact Or.inr ⟨n, Or.inl rfl, h⟩
        · exact Or.inr ⟨m, Or.inr hm, hrest⟩
      · rintro (h | ⟨m, hm | hm, hrest⟩)
        · exact Or.inl (Or.inl h)
        · exact Or.inl (Or.inr (hm ▸ hrest))
        · exact Or.inr ⟨m, hm, hrest⟩

lemma mem_threshold_fraud (g : Graph) (t : ℚ) (a : String) :
    a ∈ (threshold_sets g t).1 ↔ ∃ n ∈ g.nodes, n.id = a ∧ isThresholdFraud t n := by
  unfold threshold_sets
  rw [foldl_labelStep_fst]
  simp

lemma mem_threshold_clean (g : Graph) (t : ℚ) (a : String) :
    a ∈ (threshold_sets g t).2 ↔ ∃ n ∈ g.nodes, n.id = a ∧ isThresholdClean t n := by
  unfold threshold_sets
  rw [foldl_labelStep_snd]
  simp

lemma mem_fraud_iff (g : Graph) (t : ℚ) (a : String) :
    a ∈ (apply_hybrid_labeling g t).fraud ↔
      a = "BinanceWallet" ∨ ∃ n ∈ g.nodes, n.id = a ∧ isThresholdFraud t n := by
  unfold apply_hybrid_labeling
  simp only [Finset.mem_union, mem_threshold_fraud]
  unfold manual_fraud
  simp

lemma mem_clean_iff (g : Graph) (t : ℚ) (a : String) :
    a ∈ (apply_hybrid_labeling g t).clean ↔
      ∃ n ∈ g.nodes, n.id = a ∧ isThresholdClean t n := by
  unfold apply_hybrid_labeling
  simp only [Finset.mem_union, mem_threshold_clean]
  unfold manual_clean
  simp

lemma mem_unknown_iff (g : Graph) (t : ℚ) (a : String) :
    a ∈ (apply_hybrid_labeling g t).unknown ↔
      (∃ n ∈ g.nodes, n.id = a) ∧
        a ∉ (apply_hybrid_labeling g t).fraud ∧ a ∉ (apply_hybrid_labeling g t).clean := by
  unfold apply_hybrid_labeling
  simp only [List.mem_map, List.mem_filter, decide_eq_true_eq]
  constructor
  · rintro ⟨n, ⟨hn, hnot⟩, rfl⟩
    exact ⟨⟨n, hn, rfl⟩, hnot⟩
  · rintro ⟨⟨n, hn, rfl⟩, hnot⟩
    exact ⟨n, ⟨hn, hnot⟩, rfl⟩

/-- The dict build `node_id_map[node['id']] = i` inside the
`for i, node in enumerate(...)` loop of `prepare_pyg_data`: a later assignment
to the same key overwrites an earlier one, so the lookup tries the most
recently processed node first. -/
def node_id_map (nodes : List Node) : String → Option ℕ :=
  nodes.enum.foldl (fun m p => fun s => if s = p.2.id then some p.1 else m s)
    (fun _ => none)

/-- The edge loop of `prepare_pyg_data`: append `[src, tgt]` when both
`edge['source'] in node_id_map` and `edge['target'] in node_id_map`, else
skip the edge. -/
def build_edge_list : List Edge → (String → Option ℕ) → List (ℕ × ℕ)
  | [], _ => []
  | e :: es, m =>
      match m e.source, m e.target with
      | some s, some t => (s, t) :: build_edge_list es m
      | _, _ => build_edge_list es m

/-- Shape of `torch.tensor(edge_list, dtype=torch.long).t().contiguous()` as a
function of the Python `edge_list`: `torch.tensor([])` is a one-dimensional
empty tensor of shape `[0]`, and `Tensor.t()` returns tensors of dimension
below 2 unchanged, so an empty edge list yields shape `[0]`; a list of `k`
pairs yields a tensor of shape `[k, 2]`, transposed to `[2, k]`. -/
def edge_index_shape (edge_list : List (ℕ × ℕ)) : List ℕ :=
  if edge_list.length = 0 then [0] else [2, edge_list.length]

/-- The tensors produced by `prepare_pyg_data`: feature matrix `x`, labels `y`,
`train_mask`, and the (pre-transpose) edge list. -/
structure PygData where
  x : List (List ℚ)
  y : List ℕ
  train_mask : List Bool
  edge_list : List (ℕ × ℕ)
  deriving DecidableEq

/-- Embedding of `prepare_pyg_data(graph_data, fraud_nodes, clean_nodes)`.
The node loop builds, per node in order: the feature row
`[degree, in_degree, out_degree, pagerank, tx_entropy, micro_score]`, and via
`if id in fraud_nodes / elif id in clean_nodes / else` the label
(1 / 0 / 0) and mask entry (True / True / False). Membership `in` on the
Python lists `fraud_nodes`/`clean_nodes` is membership in the corresponding
sets. -/
def prepare_pyg_data (g : Graph) (fraud clean : Finset String) : PygData :=
  { x := g.nodes.map fun n =>
      [ n.features.degree, n.features.in_degree, n.features.out_degree
      , n.features.pagerank, n.features.tx_entropy, n.features.micro_score ]
  , y := g.nodes.map fun n =>
      if n.id ∈ fraud then 1 else if n.id ∈ clean then 0 else 0
  , train_mask := g.nodes.map fun n =>
      if n.id ∈ fraud then true else if n.id ∈ clean then true else false
  , edge_list := build_edge_list g.edges (node_id_map g.nodes) }

/-- Per-node prediction in `run_gcn`:
`'FRAUD' if fraud_probs[i] > 0.5 else 'CLEAN'`. -/
def prediction (p : ℚ) : String :=
  if p > 1 / 2 then "FRAUD" else "CLEAN"

/-- Embedding of `get_node_label(node_id, fraud_nodes, clean_nodes)`. -/
def get_node_label (node_id : String) (fraud clean : Finset String) : String :=
  if node_id ∈ fraud then "FRAUD_LABELED"
  else if node_id ∈ clean then "CLEAN_LABELED"
  else "UNKNOWN"

/-- One entry of the `results` list built by `run_gcn`. -/
structure ResultEntry where
  address : String
  microScore : ℚ
  gcnProbability : ℚ
  prediction : String
  label : String
  deriving DecidableEq

/-- The `for i, node in enumerate(graph_data['nodes'])` result loop of
`run_gcn`; `probs i` stands for `fraud_probs[i]`, the trained model's
fraud-class probability for node index `i`. -/
def results_list (g : Graph) (probs : ℕ → ℚ) (fraud clean : Finset String) :
    List ResultEntry :=
  g.nodes.enum.map fun p =>
    { address := p.2.id
    , microScore := p.2.features.micro_score
    , gcnProbability := probs p.1
    , prediction := prediction (probs p.1)
    , label := get_node_label p.2.id fraud clean }

/-- The `summary` dict of the response built by `run_gcn`. -/
structure Summary where
  totalNodes : ℕ
  fraudPredicted : ℕ
  cleanPredicted : ℕ
  labeledFraud : ℕ
  labeledClean : ℕ
  unknown : ℕ
  deriving DecidableEq

/-- The summary computation at the end of `run_gcn`: counts over `results`,
plus `len(fraud_nodes)`, `len(clean_nodes)`, `len(unknown_nodes)` (the length
of `list(set)` is the set's cardinality). -/
def run_gcn_summary (g : Graph) (probs : ℕ → ℚ) (t : ℚ) : Summary :=
  let L := apply_hybrid_labeling g t
  let results := results_list g probs L.fraud L.clean
  { totalNodes := results.length
  , fraudPredicted := (results.filter fun r => decide (r.prediction = "FRAUD")).length
  , cleanPredicted := (results.filter fun r => decide (r.prediction = "CLEAN")).length
  , labeledFraud := L.fraud.card
  , labeledClean := L.clean.card
  , unknown := L.unknown.length }

lemma threshold_fraud_subset_ids (g : Graph) (t : ℚ) :
    ∀ a ∈ (threshold_sets g t).1, a ∈ node_ids g := by
  intro a ha
  rcases (mem_threshold_fraud g t a).1 ha with ⟨n, hn, rfl, -⟩
  exact List.mem_map_of_mem Node.id hn

lemma threshold_clean_subset_ids (g : Graph) (t : ℚ) :
    ∀ a ∈ (threshold_sets g t).2, a ∈ node_ids g := by
  intro a ha
  rcases (mem_threshold_clean g t a).1 ha with ⟨n, hn, rfl, -⟩
  exact List.mem_map_of_mem Node.id hn

lemma bw_not_mem_threshold_fraud (g : Graph) (t : ℚ) :
    "BinanceWallet" ∉ (threshold_sets g t).1 := by
  intro ha
  rcases (mem_threshold_fraud g t _).1 ha with ⟨n, -, hid, hcond, -⟩
  exact hcond (Or.inl (by rw [hid]; simp [manual_fraud]))

lemma bw_not_mem_threshold_clean (g : Graph) (t : ℚ) :
    "BinanceWallet" ∉ (threshold_sets g t).2 := by
  intro ha
  rcases (mem_threshold_clean g t _).1 ha with ⟨n, -, hid, hcond, -⟩
  exact hcond (Or.inl (by rw [hid]; simp [manual_fraud]))

lemma threshold_sets_disjoint (g : Graph) (t : ℚ) (h : (node_ids g).Nodup) :
    Disjoint (threshold_sets g t).1 (threshold_sets g t).2 := by
  rw [Finset.disjoint_left]
  intro a haf hac
  rcases (mem_threshold_fraud g t a).1 haf with ⟨n1, hn1, hid1, -, hscore1⟩
  rcases (mem_threshold_clean g t a).1 hac with ⟨n2, hn2, hid2, -, hscore2, -⟩
  have h2 : (g.nodes.map Node.id).Nodup := h
  have heq : n1 = n2 :=
    List.inj_on_of_nodup_map h2 hn1 hn2 (by rw [hid1, hid2])
  exact hscore2 (heq ▸ hscore1)

lemma fraud_clean_disjoint (g : Graph) (t : ℚ) (h : (node_ids g).Nodup) :
    Disjoint (apply_hybrid_labeling g t).fraud (apply_hybrid_labeling g t).clean := by
  rw [Finset.disjoint_left]
  intro a haf hac
  have ha2 : a ∈ (threshold_sets g t).2 :=
    (mem_threshold_clean g t a).2 ((mem_clean_iff g t a).1 hac)
  rcases (mem_fraud_iff g t a).1 haf with rfl | htf
  · exact bw_not_mem_threshold_clean g t ha2
  · have ha1 : a ∈ (threshold_sets g t).1 := (mem_threshold_fraud g t a).2 htf
    have hdisj := threshold_sets_disjoint g t h
    rw [Finset.disjoint_left] at hdisj
    exact hdisj ha1 ha2

lemma length_filter_three {α : Type} (l : List α) (p q : α → Bool)
    (h : ∀ a ∈ l, ¬(p a = true ∧ q a = true)) :
    (l.filter p).length + (l.filter q).length +
      (l.filter fun a => !p a && !q a).length = l.length := by
  induction l with
  | nil => simp
  | cons a l ih =>
      have ha := h a (List.mem_cons_self a l)
      have ih2 := ih (fun b hb => h b (List.mem_cons_of_mem a hb))
      cases hp : p a <;> cases hq : q a
      · simp [List.filter_cons, hp, hq]
        omega
      · simp [List.filter_cons, hp, hq]
        omega
      · simp [List.filter_cons, hp, hq]
        omega
      · exact absurd ⟨hp, hq⟩ ha

lemma length_filter_map {α β : Type} (l : List α) (f : α → β) (p : β → Bool) :
    ((l.map f).filter p).length = (l.filter fun a => p (f a)).length := by
  induction l with
  | nil => simp
  | cons a l ih =>
      simp only [List.map_cons, List.filter_cons]
      cases hp : p (f a) <;> simp [hp, ih]

lemma length_filter_mem_finset (ids : List String) (h : ids.Nodup) (F : Finset String) :
    (ids.filter fun a => decide (a ∈ F)).length = (ids.toFinset ∩ F).card := by
  have h1 : (ids.filter fun a => decide (a ∈ F)).toFinset.card
      = (ids.filter fun a => decide (a ∈ F)).length :=
    List.toFinset_card_of_nodup (h.filter _)
  rw [← h1, List.toFinset_filter]
  congr 1
  rw [← Finset.filter_mem_eq_inter]
  exact Finset.filter_congr (by intro a _; simp)

lemma fraud_eq_insert (g : Graph) (t : ℚ) :
    (apply_hybrid_labeling g t).fraud = insert "BinanceWallet" (threshold_sets g t).1 := by
  rw [show (apply_hybrid_labeling g t).fraud = manual_fraud ∪ (threshold_sets g t).1 from rfl,
    manual_fraud, ← Finset.insert_eq]

lemma clean_eq_threshold (g : Graph) (t : ℚ) :
    (apply_hybrid_labeling g t).clean = (threshold_sets g t).2 := by
  rw [show (apply_hybrid_labeling g t).clean = manual_clean ∪ (threshold_sets g t).2 from rfl,
    manual_clean, Finset.empty_union]

lemma label_counts (g : Graph) (t : ℚ) (h : (node_ids g).Nodup) :
    (apply_hybrid_labeling g t).fraud.card + (apply_hybrid_labeling g t).clean.card +
        (apply_hybrid_labeling g t).unknown.length
      = g.nodes.length + (if "BinanceWallet" ∈ node_ids g then 0 else 1) := by
  have hexcl : ∀ a ∈ node_ids g,
      ¬((fun a => decide (a ∈ (apply_hybrid_labeling g t).fraud)) a = true ∧
        (fun a => decide (a ∈ (apply_hybrid_labeling g t).clean)) a = true) := by
    intro a _ hmem
    have hd := fraud_clean_disjoint g t h
    rw [Finset.disjoint_left] at hd
    exact hd (by simpa using hmem.1) (by simpa using hmem.2)
  have hpart := length_filter_three (node_ids g)
    (fun a => decide (a ∈ (apply_hybrid_labeling g t).fraud))
    (fun a => decide (a ∈ (apply_hybrid_labeling g t).clean)) hexcl
  beta_reduce at hpart
  have hunk : (apply_hybrid_labeling g t).unknown.length
      = ((node_ids g).filter fun a =>
          !decide (a ∈ (apply_hybrid_labeling g t).fraud) &&
          !decide (a ∈ (apply_hybrid_labeling g t).clean)).length := by
    have h0 : (apply_hybrid_labeling g t).unknown.length
        = (g.nodes.filter fun n =>
            decide (n.id ∉ (apply_hybrid_labeling g t).fraud ∧
              n.id ∉ (apply_hybrid_labeling g t).clean)).length := by
      rw [show (apply_hybrid_labeling g t).unknown
          = (g.nodes.filter fun n =>
              decide (n.id ∉ (apply_hybrid_labeling g t).fraud ∧
                n.id ∉ (apply_hybrid_labeling g t).clean)).map Node.id from rfl,
        List.length_map]
    rw [h0, node_ids, length_filter_map]
    congr 1
    apply List.filter_congr
    intro n _
    simp [decide_not]
  have hA : ((node_ids g).filter fun a =>
        decide (a ∈ (apply_hybrid_labeling g t).fraud)).length
      = ((node_ids g).toFinset ∩ (apply_hybrid_labeling g t).fraud).card :=
    length_filter_mem_finset (node_ids g) h _
  have hB : ((node_ids g).filter fun a =>
        decide (a ∈ (apply_hybrid_labeling g t).clean)).length
      = ((node_ids g).toFinset ∩ (apply_hybrid_labeling g t).clean).card :=
    length_filter_mem_finset (node_ids g) h _
  have htfS : (threshold_sets g t).1 ⊆ (node_ids g).toFinset := by
    intro a ha
    rw [List.mem_toFinset]
    exact threshold_fraud_subset_ids g t a ha
  have htcS : (threshold_sets g t).2 ⊆ (node_ids g).toFinset := by
    intro a ha
    rw [List.mem_toFinset]
    exact threshold_clean_subset_ids g t a ha
  have hSF : ((node_ids g).toFinset ∩ (apply_hybrid_labeling g t).fraud).card
      = (if "BinanceWallet" ∈ node_ids g then 1 else 0) + (threshold_sets g t).1.card := by
    rw [fraud_eq_insert, Finset.insert_eq, Finset.inter_union_distrib_left,
      Finset.inter_eq_right.mpr htfS]
    have hdis : Disjoint ((node_ids g).toFinset ∩ {"BinanceWallet"}) (threshold_sets g t).1 := by
      rw [Finset.disjoint_left]
      intro a ha hat
      have : a = "BinanceWallet" := by
        have := (Finset.mem_inter.1 ha).2
        simpa using this
      exact bw_not_mem_threshold_fraud g t (this ▸ hat)
    rw [Finset.card_union_of_disjoint hdis]
    congr 1
    by_cases hbw : "BinanceWallet" ∈ node_ids g
    · rw [if_pos hbw, Finset.inter_comm,
        Finset.singleton_inter_of_mem (List.mem_toFinset.2 hbw)]
      simp
    · rw [if_neg hbw, Finset.inter_comm,
        Finset.singleton_inter_of_not_mem (fun hc => hbw (List.mem_toFinset.1 hc))]
      simp
  have hSC : ((node_ids g).toFinset ∩ (apply_hybrid_labeling g t).clean).card
      = (threshold_sets g t).2.card := by
    rw [clean_eq_threshold, Finset.inter_eq_right.mpr htcS]
  have hcardF : (apply_hybrid_labeling g t).fraud.card = (threshold_sets g t).1.card + 1 := by
    rw [fraud_eq_insert, Finset.card_insert_of_not_mem (bw_not_mem_threshold_fraud g t)]
  have hcardC : (apply_hybrid_labeling g t).clean.card = (threshold_sets g t).2.card := by
    rw [clean_eq_threshold]
  have hlen : (node_ids g).length = g.nodes.length := by
    simp [node_ids]
  rw [hunk, hcardF, hcardC]
  rw [hA, hB, hSF, hSC, hlen] at hpart
  by_cases hbw : "BinanceWallet" ∈ node_ids g
  · rw [if_pos hbw] at hpart ⊢
    omega
  · rw [if_neg hbw] at hpart ⊢
    omega


lemma filter_length_zero {α : Type} (l : List α) (p : α → Bool)
    (h : ∀ a ∈ l, p a = false) : (l.filter p).length = 0 := by
  induction l with
  | nil => simp
  | cons a l ih =>
      have ha := h a (List.mem_cons_self a l)
      rw [List.filter_cons, ha]
      exact ih fun b hb => h b (List.mem_cons_of_mem a hb)

/-- A one-node payload whose single node "A" (micro_score 1, degree 5) is
labeled unknown at threshold 1: 1 < 1.6 and 1 > 0.8. It has no edges and no
node called BinanceWallet. -/
def gA : Graph :=
  { nodes := [{ id := "A"
              , features := { degree := 5, in_degree := 2, out_degree := 3
                            , pagerank := 1, tx_entropy := 1, micro_score := 1 } }]
  , edges := [] }

/-- A payload that does contain a node with the hard-coded manual fraud id
BinanceWallet, plus a low-degree low-score node "B" (threshold-clean at
threshold 1). -/
def gBW : Graph :=
  { nodes := [ { id := "BinanceWallet"
               , features := { degree := 9, in_degree := 4, out_degree := 5
                             , pagerank := 1, tx_entropy := 1, micro_score := 2 } }
             , { id := "B"
               , features := { degree := 1, in_degree := 1, out_degree := 0
                             , pagerank := 1, tx_entropy := 0, micro_score := 0 } } ]
  , edges := [ { source := "BinanceWallet", target := "B" } ] }

/-- A high-risk node used for the threshold-monotonicity witness:
micro_score 4, degree 1. -/
def nF : Node :=
  { id := "F"
  , features := { degree := 1, in_degree := 0, out_degree := 1
                , pagerank := 1, tx_entropy := 0, micro_score := 4 } }

/-- A low-risk isolated node used for the locality witness. -/
def nB2 : Node :=
  { id := "B2"
  , features := { degree := 0, in_degree := 0, out_degree := 0
                , pagerank := 1, tx_entropy := 0, micro_score := 0 } }

/-- One-node graph containing just `nF`. -/
def gF : Graph := { nodes := [nF], edges := [] }

/-- Two-node graph containing `nF` with an extra node and an edge, used to
show `nF`'s label does not depend on them. -/
def gF2 : Graph :=
  { nodes := [nF, nB2], edges := [{ source := "F", target := "B2" }] }

lemma gA_label : apply_hybrid_labeling gA 1
    = { fraud := {"BinanceWallet"}, clean := ∅, unknown := ["A"] } := by
  norm_num [apply_hybrid_labeling, threshold_sets, labelStep, manual_fraud, manual_clean, gA]
  decide

lemma gBW_label : apply_hybrid_labeling gBW 1
    = { fraud := {"BinanceWallet"}, clean := {"B"}, unknown := [] } := by
  norm_num [apply_hybrid_labeling, threshold_sets, labelStep, manual_fraud, manual_clean, gBW]
  decide

lemma gF_fraud_two : "F" ∈ (apply_hybrid_labeling gF 2).fraud := by
  refine (mem_fraud_iff gF 2 "F").2 (Or.inr ⟨nF, by simp [gF], rfl, ?_⟩)
  unfold isThresholdFraud
  refine ⟨?_, ?_⟩
  · simp [nF, manual_fraud, manual_clean]
  · norm_num [nF]

/-- C1 (amended): for every graph with distinct node ids and every threshold,
the three outputs of `apply_hybrid_labeling` are pairwise disjoint and free of
duplicates, and their union is the set of node ids of the graph TOGETHER WITH
the hard-coded manual fraud id BinanceWallet (which is present whether or not
the graph contains such a node); the union equals exactly the graph's node ids
only when BinanceWallet is one of them. -/
theorem C1_labeling_partition (g : Graph) (t : ℚ) (h : (node_ids g).Nodup) :
    Disjoint (apply_hybrid_labeling g t).fraud (apply_hybrid_labeling g t).clean ∧
    (∀ a ∈ (apply_hybrid_labeling g t).unknown,
      a ∉ (apply_hybrid_labeling g t).fraud ∧ a ∉ (apply_hybrid_labeling g t).clean) ∧
    (apply_hybrid_labeling g t).unknown.Nodup ∧
    (∀ a, (a ∈ (apply_hybrid_labeling g t).fraud ∨ a ∈ (apply_hybrid_labeling g t).clean ∨
        a ∈ (apply_hybrid_labeling g t).unknown) ↔
      (a ∈ node_ids g ∨ a = "BinanceWallet")) := by
  refine ⟨fraud_clean_disjoint g t h, ?_, ?_, ?_⟩
  · intro a ha
    exact ((mem_unknown_iff g t a).1 ha).2
  · have h2 : (g.nodes.map Node.id).Nodup := h
    have hrfl : (apply_hybrid_labeling g t).unknown
        = (g.nodes.filter fun n =>
            decide (n.id ∉ (apply_hybrid_labeling g t).fraud ∧
              n.id ∉ (apply_hybrid_labeling g t).clean)).map Node.id := rfl
    rw [hrfl]
    exact List.Nodup.sublist ((List.filter_sublist g.nodes).map Node.id) h2
  · intro a
    constructor
    · rintro (hf | hc | hu)
      · rcases (mem_fraud_iff g t a).1 hf with rfl | ⟨n, hn, rfl, -⟩
        · exact Or.inr rfl
        · exact Or.inl (List.mem_map_of_mem Node.id hn)
      · rcases (mem_clean_iff g t a).1 hc with ⟨n, hn, rfl, -⟩
        exact Or.inl (List.mem_map_of_mem Node.id hn)
      · rcases ((mem_unknown_iff g t a).1 hu).1 with ⟨n, hn, rfl⟩
        exact Or.inl (List.mem_map_of_mem Node.id hn)
    · rintro (hid | rfl)
      · by_cases hf : a ∈ (apply_hybrid_labeling g t).fraud
        · exact Or.inl hf
        by_cases hc : a ∈ (apply_hybrid_labeling g t).clean
        · exact Or.inr (Or.inl hc)
        · refine Or.inr (Or.inr ((mem_unknown_iff g t a).2 ⟨?_, hf, hc⟩))
          rcases List.mem_map.1 hid with ⟨n, hn, rfl⟩
          exact ⟨n, hn, rfl⟩
      · exact Or.inl ((mem_fraud_iff g t _).2 (Or.inl rfl))

/-- C1 counterexample: on the one-node graph `gA` (which has no node called
BinanceWallet), the fraud list contains BinanceWallet, which is not a node id
of the graph, so the union of the three returned lists is strictly larger
than the set of node ids — the claimed partition of the graph's node ids
fails. -/
theorem C1_counterexample :
    "BinanceWallet" ∈ (apply_hybrid_labeling gA 1).fraud ∧
    "BinanceWallet" ∉ node_ids gA ∧
    ¬(∀ a, (a ∈ (apply_hybrid_labeling gA 1).fraud ∨
        a ∈ (apply_hybrid_labeling gA 1).clean ∨
        a ∈ (apply_hybrid_labeling gA 1).unknown) ↔ a ∈ node_ids gA) := by
  refine ⟨by simp [gA_label], by decide, fun hall => ?_⟩
  have hbw := (hall "BinanceWallet").1 (Or.inl (by simp [gA_label]))
  revert hbw
  decide

/-- C1 witness: the amended partition statement instantiated on the concrete
two-node graph `gBW` at threshold 1. -/
theorem C1_labeling_partition_witness :
    Disjoint (apply_hybrid_labeling gBW 1).fraud (apply_hybrid_labeling gBW 1).clean ∧
    (∀ a ∈ (apply_hybrid_labeling gBW 1).unknown,
      a ∉ (apply_hybrid_labeling gBW 1).fraud ∧ a ∉ (apply_hybrid_labeling gBW 1).clean) ∧
    (apply_hybrid_labeling gBW 1).unknown.Nodup ∧
    (∀ a, (a ∈ (apply_hybrid_labeling gBW 1).fraud ∨ a ∈ (apply_hybrid_labeling gBW 1).clean ∨
        a ∈ (apply_hybrid_labeling gBW 1).unknown) ↔
      (a ∈ node_ids gBW ∨ a = "BinanceWallet")) :=
  C1_labeling_partition gBW 1 (by decide)

/-- C2 (amended): for every graph with distinct node ids, every probability
assignment and every threshold, `fraudPredicted + cleanPredicted = totalNodes`
holds as claimed; but `labeledFraud + labeledClean + unknown` equals
`totalNodes` only when BinanceWallet is a node id of the graph — otherwise it
equals `totalNodes + 1`, because `labeledFraud` counts the hard-coded manual
fraud id that no result row carries. -/
theorem C2_summary_reconciliation (g : Graph) (probs : ℕ → ℚ) (t : ℚ)
    (h : (node_ids g).Nodup) :
    (run_gcn_summary g probs t).fraudPredicted + (run_gcn_summary g probs t).cleanPredicted
        = (run_gcn_summary g probs t).totalNodes ∧
    (run_gcn_summary g probs t).labeledFraud + (run_gcn_summary g probs t).labeledClean
        + (run_gcn_summary g probs t).unknown
      = (run_gcn_summary g probs t).totalNodes
        + (if "BinanceWallet" ∈ node_ids g then 0 else 1) := by
  constructor
  · have hexcl : ∀ r ∈ results_list g probs (apply_hybrid_labeling g t).fraud
        (apply_hybrid_labeling g t).clean,
        ¬((fun r : ResultEntry => decide (r.prediction = "FRAUD")) r = true ∧
          (fun r : ResultEntry => decide (r.prediction = "CLEAN")) r = true) := by
      intro r _ hand
      have h1 := of_decide_eq_true hand.1
      have h2 := of_decide_eq_true hand.2
      rw [h1] at h2
      exact absurd h2 (by decide)
    have h3 := length_filter_three
      (results_list g probs (apply_hybrid_labeling g t).fraud (apply_hybrid_labeling g t).clean)
      (fun r : ResultEntry => decide (r.prediction = "FRAUD"))
      (fun r : ResultEntry => decide (r.prediction = "CLEAN")) hexcl
    beta_reduce at h3
    have hz : ((results_list g probs (apply_hybrid_labeling g t).fraud
        (apply_hybrid_labeling g t).clean).filter fun r =>
          !decide (r.prediction = "FRAUD") && !decide (r.prediction = "CLEAN")).length = 0 := by
      apply filter_length_zero
      intro r hr
      obtain ⟨p, -, rfl⟩ := List.mem_map.1 hr
      show (!decide (prediction (probs p.1) = "FRAUD") &&
        !decide (prediction (probs p.1) = "CLEAN")) = false
      unfold prediction
      split_ifs <;> simp
    have e1 : (run_gcn_summary g probs t).fraudPredicted
        = ((results_list g probs (apply_hybrid_labeling g t).fraud
            (apply_hybrid_labeling g t).clean).filter fun r =>
              decide (r.prediction = "FRAUD")).length := rfl
    have e2 : (run_gcn_summary g probs t).cleanPredicted
        = ((results_list g probs (apply_hybrid_labeling g t).fraud
            (apply_hybrid_labeling g t).clean).filter fun r =>
              decide (r.prediction = "CLEAN")).length := rfl
    have e3 : (run_gcn_summary g probs t).totalNodes
        = (results_list g probs (apply_hybrid_labeling g t).fraud
            (apply_hybrid_labeling g t).clean).length := rfl
    rw [e1, e2, e3]
    omega
  · have eF : (run_gcn_summary g probs t).labeledFraud
        = (apply_hybrid_labeling g t).fraud.card := rfl
    have eC : (run_gcn_summary g probs t).labeledClean
        = (apply_hybrid_labeling g t).clean.card := rfl
    have eU : (run_gcn_summary g probs t).unknown
        = (apply_hybrid_labeling g t).unknown.length := rfl
    have eT : (run_gcn_summary g probs t).totalNodes
        = (results_list g probs (apply_hybrid_labeling g t).fraud
            (apply_hybrid_labeling g t).clean).length := rfl
    have eL : (results_list g probs (apply_hybrid_labeling g t).fraud
        (apply_hybrid_labeling g t).clean).length = g.nodes.length := by
      simp [results_list]
    rw [eF, eC, eU, eT, eL]
    exact label_counts g t h

/-- C2 counterexample: on the one-node graph `gA` (no BinanceWallet node) at
threshold 1, the summary has labeledFraud = 1 (the phantom manual id),
labeledClean = 0, unknown = 1, but totalNodes = 1, so the claimed second
reconciliation `labeledFraud + labeledClean + unknown = totalNodes` fails
(2 ≠ 1). -/
theorem C2_counterexample :
    (run_gcn_summary gA (fun _ => 0) 1).labeledFraud
        + (run_gcn_summary gA (fun _ => 0) 1).labeledClean
        + (run_gcn_summary gA (fun _ => 0) 1).unknown
      ≠ (run_gcn_summary gA (fun _ => 0) 1).totalNodes := by
  have eF : (run_gcn_summary gA (fun _ => 0) 1).labeledFraud
      = (apply_hybrid_labeling gA 1).fraud.card := rfl
  have eC : (run_gcn_summary gA (fun _ => 0) 1).labeledClean
      = (apply_hybrid_labeling gA 1).clean.card := rfl
  have eU : (run_gcn_summary gA (fun _ => 0) 1).unknown
      = (apply_hybrid_labeling gA 1).unknown.length := rfl
  have eT : (run_gcn_summary gA (fun _ => 0) 1).totalNodes
      = (results_list gA (fun _ => 0) (apply_hybrid_labeling gA 1).fraud
          (apply_hybrid_labeling gA 1).clean).length := rfl
  rw [eF, eC, eU, eT, gA_label]
  simp [results_list, gA]

/-- C2 witness: the amended reconciliation instantiated on the concrete
two-node graph `gBW` (which does contain a BinanceWallet node) at
threshold 1. -/
theorem C2_summary_reconciliation_witness :
    (run_gcn_summary gBW (fun _ => 0) 1).fraudPredicted
        + (run_gcn_summary gBW (fun _ => 0) 1).cleanPredicted
      = (run_gcn_summary gBW (fun _ => 0) 1).totalNodes ∧
    (run_gcn_summary gBW (fun _ => 0) 1).labeledFraud
        + (run_gcn_summary gBW (fun _ => 0) 1).labeledClean
        + (run_gcn_summary gBW (fun _ => 0) 1).unknown
      = (run_gcn_summary gBW (fun _ => 0) 1).totalNodes
        + (if "BinanceWallet" ∈ node_ids gBW then 0 else 1) :=
  C2_summary_reconciliation gBW (fun _ => 0) 1 (by decide)

/-- C3: on the all-unknown input `gA` at threshold 1, the training mask built
by `prepare_pyg_data` from the labeling output selects zero rows. The source
has no emptiness check between `prepare_pyg_data` and the
`for epoch in range(100)` loop, so instead of failing fast before training it
computes `F.nll_loss` over an empty selection. -/
theorem C3_empty_train_mask :
    (prepare_pyg_data gA (apply_hybrid_labeling gA 1).fraud
        (apply_hybrid_labeling gA 1).clean).train_mask = [false] ∧
    (prepare_pyg_data gA (apply_hybrid_labeling gA 1).fraud
        (apply_hybrid_labeling gA 1).clean).train_mask.count true = 0 := by
  rw [gA_label]
  exact ⟨by decide, by decide⟩

/-- C4: on a graph with one node and zero edges, the edge loop of
`prepare_pyg_data` produces the empty Python list, and
`torch.tensor([], dtype=long).t().contiguous()` then has shape `[0]`, not the
well-formed `[2, 0]` shape the claim requires. -/
theorem C4_empty_edge_index_shape :
    build_edge_list gA.edges (node_id_map gA.nodes) = [] ∧
    edge_index_shape (build_edge_list gA.edges (node_id_map gA.nodes)) = [0] ∧
    edge_index_shape (build_edge_list gA.edges (node_id_map gA.nodes)) ≠ [2, 0] := by
  refine ⟨rfl, rfl, ?_⟩
  decide

/-- C5: holding the graph (hence every node's features) fixed, raising the
threshold never moves a non-manually-assigned id into the fraud set: if a
non-manual id is labeled fraud at the higher threshold it was already labeled
fraud at the lower one. -/
theorem C5_threshold_monotone (g : Graph) (t t2 : ℚ) (a : String)
    (ht : t ≤ t2) (hm1 : a ∉ manual_fraud) (hm2 : a ∉ manual_clean)
    (hf : a ∈ (apply_hybrid_labeling g t2).fraud) :
    a ∈ (apply_hybrid_labeling g t).fraud := by
  rcases (mem_fraud_iff g t2 a).1 hf with rfl | ⟨n, hn, hid, hITF⟩
  · exact absurd (by simp [manual_fraud]) hm1
  · unfold isThresholdFraud at hITF
    obtain ⟨hman, hsc⟩ := hITF
    refine (mem_fraud_iff g t a).2 (Or.inr ⟨n, hn, hid, ?_⟩)
    unfold isThresholdFraud
    refine ⟨hman, ?_⟩
    have hmul : t * (8 / 5) ≤ t2 * (8 / 5) :=
      mul_le_mul_of_nonneg_right ht (by norm_num)
    exact le_trans hmul hsc

/-- C5 witness: the node "F" (micro_score 4) is threshold-fraud at threshold
2, and the theorem transports it into the fraud set at the lower threshold
1. -/
theorem C5_threshold_monotone_witness :
    (1 : ℚ) ≤ 2 ∧ "F" ∈ (apply_hybrid_labeling gF 1).fraud :=
  ⟨by decide, C5_threshold_monotone gF 1 2 "F" (by decide) (by decide) (by decide)
    gF_fraud_two⟩

/-- C6: for every node index `i`, the train-mask entry built by
`prepare_pyg_data` is true exactly when the node's id is in
`fraud_nodes ∪ clean_nodes`, and the label entry is 1 exactly when the id is
in `fraud_nodes` (clean and unknown both encode to 0). -/
theorem C6_mask_label_coherence (g : Graph) (fraud clean : Finset String)
    (i : ℕ) (h : i < g.nodes.length) :
    ((prepare_pyg_data g fraud clean).train_mask.getD i false = true ↔
      g.nodes[i].id ∈ fraud ∨ g.nodes[i].id ∈ clean) ∧
    ((prepare_pyg_data g fraud clean).y.getD i 0 = 1 ↔ g.nodes[i].id ∈ fraud) := by
  have hm : i < (g.nodes.map fun n =>
      if n.id ∈ fraud then true else if n.id ∈ clean then true else false).length := by
    simpa using h
  have hy : i < (g.nodes.map fun n =>
      if n.id ∈ fraud then (1 : ℕ) else if n.id ∈ clean then 0 else 0).length := by
    simpa using h
  have e1 : (prepare_pyg_data g fraud clean).train_mask.getD i false
      = if g.nodes[i].id ∈ fraud then true
        else if g.nodes[i].id ∈ clean then true else false := by
    rw [show (prepare_pyg_data g fraud clean).train_mask = g.nodes.map fun n =>
        if n.id ∈ fraud then true else if n.id ∈ clean then true else false from rfl,
      List.getD_eq_getElem _ _ hm, List.getElem_map]
  have e2 : (prepare_pyg_data g fraud clean).y.getD i 0
      = if g.nodes[i].id ∈ fraud then (1 : ℕ)
        else if g.nodes[i].id ∈ clean then 0 else 0 := by
    rw [show (prepare_pyg_data g fraud clean).y = g.nodes.map fun n =>
        if n.id ∈ fraud then (1 : ℕ) else if n.id ∈ clean then 0 else 0 from rfl,
      List.getD_eq_getElem _ _ hy, List.getElem_map]
  rw [e1, e2]
  refine ⟨?_, ?_⟩ <;> split_ifs with h1 h2 <;> simp [*]

/-- C6 witness: the coherence statement instantiated at index 0 of the
two-node graph `gBW` with fraud set {BinanceWallet} and clean set {B}. -/
theorem C6_mask_label_coherence_witness :
    ((prepare_pyg_data gBW {"BinanceWallet"} {"B"}).train_mask.getD 0 false = true ↔
      "BinanceWallet" ∈ ({"BinanceWallet"} : Finset String) ∨
        "BinanceWallet" ∈ ({"B"} : Finset String)) ∧
    ((prepare_pyg_data gBW {"BinanceWallet"} {"B"}).y.getD 0 0 = 1 ↔
      "BinanceWallet" ∈ ({"BinanceWallet"} : Finset String)) :=
  C6_mask_label_coherence gBW {"BinanceWallet"} {"B"} 0 (by decide)

/-- C7: a node is reported FRAUD exactly when its fraud-class probability is
strictly greater than 0.5, and a probability of exactly 0.5 yields CLEAN. -/
theorem C7_prediction_threshold :
    (∀ p : ℚ, prediction p = "FRAUD" ↔ 1 / 2 < p) ∧ prediction (1 / 2) = "CLEAN" := by
  constructor
  · intro p
    unfold prediction
    split_ifs with hp
    · simpa using hp
    · simpa using hp
  · norm_num [prediction]

/-- C8: the edge loop of `prepare_pyg_data` equals a filterMap over the edge
list: an edge whose source or target id is absent from the node-index map is
silently dropped, and an edge with both endpoints present contributes exactly
the one directed index pair (source, target); the function is total, so no
input edge raises an error, and no reversed pair is ever added. -/
theorem C8_edge_filtering (edges : List Edge) (m : String → Option ℕ) :
    build_edge_list edges m = edges.filterMap fun e =>
      match m e.source, m e.target with
      | some s, some t => some (s, t)
      | _, _ => none := by
  induction edges with
  | nil => rfl
  | cons e es ih =>
      rw [List.filterMap_cons]
      unfold build_edge_list
      cases hs : m e.source <;> cases ht : m e.target <;> simp [hs, ht, ih]

/-- C9: for every input graph, threshold and probability assignment, the
fraud set returned by `apply_hybrid_labeling` contains the hard-coded id
BinanceWallet (the member of `manual_fraud`, united in unconditionally), and
the summary field `labeledFraud = len(fraud_nodes)` therefore counts at least
it — whether or not any node with that id exists in the graph. -/
theorem C9_hardcoded_binance (g : Graph) (t : ℚ) (probs : ℕ → ℚ) :
    "BinanceWallet" ∈ (apply_hybrid_labeling g t).fraud ∧
    1 ≤ (run_gcn_summary g probs t).labeledFraud := by
  have hbw : "BinanceWallet" ∈ (apply_hybrid_labeling g t).fraud :=
    (mem_fraud_iff g t _).2 (Or.inl rfl)
  refine ⟨hbw, ?_⟩
  have hrfl : (run_gcn_summary g probs t).labeledFraud
      = (apply_hybrid_labeling g t).fraud.card := rfl
  rw [hrfl]
  exact Finset.card_pos.2 ⟨_, hbw⟩

lemma fraud_membership_locality (g : Graph) (t : ℚ) (a : String) (μ : ℚ)
    (hm1 : a ∉ manual_fraud) (hm2 : a ∉ manual_clean)
    (hex : ∃ n ∈ g.nodes, n.id = a)
    (hfe : ∀ n ∈ g.nodes, n.id = a → n.features.micro_score = μ) :
    (a ∈ (apply_hybrid_labeling g t).fraud ↔ μ ≥ t * (8 / 5)) := by
  rw [mem_fraud_iff]
  constructor
  · rintro (rfl | ⟨n, hn, hid, hITF⟩)
    · exact absurd (by simp [manual_fraud]) hm1
    · unfold isThresholdFraud at hITF
      exact (hfe n hn hid) ▸ hITF.2
  · intro hsc
    rcases hex with ⟨n, hn, hid⟩
    refine Or.inr ⟨n, hn, hid, ?_⟩
    unfold isThresholdFraud
    refine ⟨?_, ?_⟩
    · rw [hid]
      tauto
    · rw [hfe n hn hid]
      exact hsc

lemma clean_membership_locality (g : Graph) (t : ℚ) (a : String) (μ d : ℚ)
    (hm1 : a ∉ manual_fraud) (hm2 : a ∉ manual_clean)
    (hex : ∃ n ∈ g.nodes, n.id = a)
    (hfe : ∀ n ∈ g.nodes, n.id = a → n.features.micro_score = μ ∧ n.features.degree = d) :
    (a ∈ (apply_hybrid_labeling g t).clean ↔
      (¬(μ ≥ t * (8 / 5)) ∧ μ ≤ t * (4 / 5) ∧ d ≤ 2)) := by
  rw [mem_clean_iff]
  constructor
  · rintro ⟨n, hn, hid, hITC⟩
    unfold isThresholdClean at hITC
    obtain ⟨hμ, hd⟩ := hfe n hn hid
    exact ⟨hμ ▸ hITC.2.1, hμ ▸ hITC.2.2.1, hd ▸ hITC.2.2.2⟩
  · rintro ⟨hnf, hlo, hdeg⟩
    rcases hex with ⟨n, hn, hid⟩
    obtain ⟨hμ, hd⟩ := hfe n hn hid
    refine ⟨n, hn, hid, ?_⟩
    unfold isThresholdClean
    refine ⟨?_, ?_, ?_, ?_⟩
    · rw [hid]
      tauto
    · rw [hμ]
      exact hnf
    · rw [hμ]
      exact hlo
    · rw [hd]
      exact hdeg

/-- C10: for a node id outside the manual fraud and manual clean sets, its
assignment to the fraud, clean or unknown output of `apply_hybrid_labeling`
depends only on the threshold and that node's own micro_score and degree: two
graphs that both contain the id, with the same micro_score and degree for it,
place it in the same output sets regardless of edges or other nodes. -/
theorem C10_label_locality (g1 g2 : Graph) (t : ℚ) (a : String) (μ d : ℚ)
    (hm1 : a ∉ manual_fraud) (hm2 : a ∉ manual_clean)
    (hex1 : ∃ n ∈ g1.nodes, n.id = a) (hex2 : ∃ n ∈ g2.nodes, n.id = a)
    (hfe1 : ∀ n ∈ g1.nodes, n.id = a →
      n.features.micro_score = μ ∧ n.features.degree = d)
    (hfe2 : ∀ n ∈ g2.nodes, n.id = a →
      n.features.micro_score = μ ∧ n.features.degree = d) :
    (a ∈ (apply_hybrid_labeling g1 t).fraud ↔ a ∈ (apply_hybrid_labeling g2 t).fraud) ∧
    (a ∈ (apply_hybrid_labeling g1 t).clean ↔ a ∈ (apply_hybrid_labeling g2 t).clean) ∧
    (a ∈ (apply_hybrid_labeling g1 t).unknown ↔ a ∈ (apply_hybrid_labeling g2 t).unknown) := by
  have hf1 := fraud_membership_locality g1 t a μ hm1 hm2 hex1
    fun n hn hid => (hfe1 n hn hid).1
  have hf2 := fraud_membership_locality g2 t a μ hm1 hm2 hex2
    fun n hn hid => (hfe2 n hn hid).1
  have hc1 := clean_membership_locality g1 t a μ d hm1 hm2 hex1 hfe1
  have hc2 := clean_membership_locality g2 t a μ d hm1 hm2 hex2 hfe2
  refine ⟨hf1.trans hf2.symm, hc1.trans hc2.symm, ?_⟩
  rw [mem_unknown_iff, mem_unknown_iff]
  constructor
  · rintro ⟨-, hnf, hnc⟩
    exact ⟨hex2, fun hf => hnf (hf1.2 (hf2.1 hf)), fun hc => hnc (hc1.2 (hc2.1 hc))⟩
  · rintro ⟨-, hnf, hnc⟩
    exact ⟨hex1, fun hf => hnf (hf2.2 (hf1.1 hf)), fun hc => hnc (hc2.2 (hc1.1 hc))⟩

/-- C10 witness: the node "F" (micro_score 4, degree 1) gets the same
fraud/clean/unknown placement in the one-node graph `gF` and in the two-node
graph `gF2` that adds another node and an edge, at threshold 1. -/
theorem C10_label_locality_witness :
    ("F" ∈ (apply_hybrid_labeling gF 1).fraud ↔ "F" ∈ (apply_hybrid_labeling gF2 1).fraud) ∧
    ("F" ∈ (apply_hybrid_labeling gF 1).clean ↔ "F" ∈ (apply_hybrid_labeling gF2 1).clean) ∧
    ("F" ∈ (apply_hybrid_labeling gF 1).unknown ↔
      "F" ∈ (apply_hybrid_labeling gF2 1).unknown) :=
  C10_label_locality gF gF2 1 "F" 4 1 (by decide) (by decide) (by decide) (by decide)
    (by decide) (by decide)

end GcnProcessor
